import Mathlib

/-!
Verification of the pokerbot's core algorithms (`python_skeleton/player.py`):
the hand evaluator `Player.evaluate_hand`, the Monte Carlo equity estimator
`Player.monte_carlo_hand_strength`, and the decision policy `Player.get_action`.

Cards handled by the evaluator are plain integers; the evaluator decodes a
card `c` as suit `c % 4` and value `c / 4`.  A canonical 52-card deck in this
encoding is `{4*v + s | v ∈ [2..14], s ∈ [0..3]}`, i.e. the integers 8..59.
The estimator, by contrast, works with card *values* only (integers 2..14,
with multiplicity 4 in its reconstructed deck).

Sequential Python control flow (early `return`, loops with `break`-like
returns) is modelled with nested matches; Python runtime errors (IndexError
from `list[0]` on an empty list, ValueError from `list.remove` or
`random.sample`) are modelled with `Option`/`Except`.
-/

/-- `sorted(l, reverse=True)`: sort a list of naturals in descending order. -/
def sortDesc (l : List ℕ) : List ℕ :=
  l.insertionSort (fun a b => b ≤ a)

instance : IsTotal ℕ (fun a b : ℕ => b ≤ a) :=
  ⟨fun a b => Or.symm (Nat.le_total a b)⟩

instance : IsTrans ℕ (fun a b : ℕ => b ≤ a) :=
  ⟨fun _ _ _ hab hbc => Nat.le_trans hbc hab⟩

instance : IsAntisymm ℕ (fun a b : ℕ => b ≤ a) :=
  ⟨fun _ _ h₁ h₂ => Nat.le_antisymm h₂ h₁⟩

/-- The values (`card // 4`) of the cards of a given suit (`card % 4 == suit`),
in input order: `[value for value, s in zip(values, suits) if s == suit]`. -/
def suitValues (cards : List ℕ) (suit : ℕ) : List ℕ :=
  (cards.filter (fun c => c % 4 == suit)).map (fun c => c / 4)

/-- `l == list(range(l[0], l[0] - 5, -1))` for a 5-element descending-sorted
list of nonnegative values: each element is the predecessor of the one
before it. -/
def isRun : List ℕ → Bool
  | a :: rest =>
    match rest with
    | b :: _ => a == b + 1 && isRun rest
    | [] => true
  | [] => true

/-- The straight-flush check of one iteration of the evaluator's first loop:
if the suit holds at least 5 cards and the top five of its sorted values form
a descending run, the strength is `8 + straight_flush[0]`. -/
def sfForSuit (cards : List ℕ) (suit : ℕ) : Option ℕ :=
  let sv := suitValues cards suit
  if 5 ≤ sv.length then
    let sf := (sortDesc sv).take 5
    if isRun sf then some (8 + sf.headD 0) else none
  else none

/-- The straight-flush loop `for suit in range(4)`: first suit that yields a
straight flush wins. -/
def sfFind (cards : List ℕ) : Option ℕ :=
  match sfForSuit cards 0 with
  | some r => some r
  | none =>
    match sfForSuit cards 1 with
    | some r => some r
    | none =>
      match sfForSuit cards 2 with
      | some r => some r
      | none => sfForSuit cards 3

/-- `values = [card // 4 for card in all_cards]`. -/
def handValues (cards : List ℕ) : List ℕ :=
  cards.map (fun c => c / 4)

/-- `value_counts = [values.count(value) for value in range(2, 15)]`:
index `i` holds the number of occurrences of value `i + 2`. -/
def countsList (values : List ℕ) : List ℕ :=
  (List.range' 2 13).map (fun v => values.count v)

/-- Four-of-a-kind check: `if 4 in value_counts: return 7 + value_counts.index(4) * 2`. -/
def quadsResult (values : List ℕ) : Option ℕ :=
  let counts := countsList values
  if counts.contains 4 then some (7 + (counts.findIdx (fun c => c == 4)) * 2) else none

/-- Full-house check:
`if 3 in value_counts and 2 in value_counts: return 6 + index(3) * 2 + index(2)`. -/
def fullHouseResult (values : List ℕ) : Option ℕ :=
  let counts := countsList values
  if counts.contains 3 && counts.contains 2 then
    some (6 + (counts.findIdx (fun c => c == 3)) * 2 + (counts.findIdx (fun c => c == 2)))
  else none

/-- Flush check for one suit: at least 5 cards of the suit give `5 + flush[0]`
where `flush[0]` is the largest value of the suit. -/
def flushForSuit (cards : List ℕ) (suit : ℕ) : Option ℕ :=
  let sv := suitValues cards suit
  if 5 ≤ sv.length then some (5 + ((sortDesc sv).take 5).headD 0) else none

/-- The flush loop `for suit in range(4)`. -/
def flushFind (cards : List ℕ) : Option ℕ :=
  match flushForSuit cards 0 with
  | some r => some r
  | none =>
    match flushForSuit cards 1 with
    | some r => some r
    | none =>
      match flushForSuit cards 2 with
      | some r => some r
      | none => flushForSuit cards 3

/-- The straight window scan
`for i in range(len(straight_values) - 4): straight = straight_values[i:i+5] ...`
over the descending-sorted distinct values: the first window of 5 consecutive
descending values gives `4 + straight[0]`. -/
def straightScan : List ℕ → Option ℕ
  | a :: rest =>
    match rest with
    | b :: c :: d :: e :: _ =>
      if a == b + 1 && b == c + 1 && c == d + 1 && d == e + 1 then some (4 + a)
      else straightScan rest
    | _ => none
  | [] => none

/-- Straight check: `straight_values = sorted(list(set(values)), reverse=True)`
then scan all 5-windows. -/
def straightResult (values : List ℕ) : Option ℕ :=
  straightScan (sortDesc values.dedup)

/-- Three-of-a-kind check: `if 3 in value_counts: return 3 + value_counts.index(3) * 2`. -/
def tripsResult (values : List ℕ) : Option ℕ :=
  let counts := countsList values
  if counts.contains 3 then some (3 + (counts.findIdx (fun c => c == 3)) * 2) else none

/-- Two-pair check: `pairs = [value for value, count in zip(range(2, 15), value_counts) if count >= 2]`,
and with at least two such values, `2 + pairs[0] * 2 + pairs[1]` after a
descending sort. -/
def twoPairResult (values : List ℕ) : Option ℕ :=
  let pairs := (List.range' 2 13).filter (fun v => decide (2 ≤ values.count v))
  if 2 ≤ pairs.length then
    let ps := sortDesc pairs
    some (2 + ps.headD 0 * 2 + (ps.drop 1).headD 0)
  else none

/-- One-pair branch body: `pair_value = value_counts.index(2) * 2` (note: twice
the *index*, not the paired value), kickers are the values different from
`pair_value`, and the result is `1 + pair_value * 2 + kickers[0]`.
`kickers[0]` raises IndexError when the kicker list is empty, modelled as
`none`. -/
def onePairResult (values : List ℕ) : Option ℕ :=
  let pv := ((countsList values).findIdx (fun c => c == 2)) * 2
  ((sortDesc (values.filter (fun v => decide (v ≠ pv)))).head?).map
    (fun k => 1 + pv * 2 + k)

/-- High card: `values.sort(reverse=True); return values[0]`; IndexError on an
empty list, modelled as `none`. -/
def highCard (values : List ℕ) : Option ℕ :=
  (sortDesc values).head?

/-- `Player.evaluate_hand` on the combined card list `hand + community_cards`:
the checks run in source order, the first successful one returning its
strength.  `none` models a Python runtime error (IndexError). -/
def evalAll (cards : List ℕ) : Option ℕ :=
  match sfFind cards with
  | some r => some r
  | none =>
    match quadsResult (handValues cards) with
    | some r => some r
    | none =>
      match fullHouseResult (handValues cards) with
      | some r => some r
      | none =>
        match flushFind cards with
        | some r => some r
        | none =>
          match straightResult (handValues cards) with
          | some r => some r
          | none =>
            match tripsResult (handValues cards) with
            | some r => some r
            | none =>
              match twoPairResult (handValues cards) with
              | some r => some r
              | none =>
                if (countsList (handValues cards)).contains 2 then
                  onePairResult (handValues cards)
                else
                  highCard (handValues cards)

/-- `Player.evaluate_hand(hand, community_cards)`: combines the two lists and
evaluates them. -/
def evaluate_hand (hand community_cards : List ℕ) : Option ℕ :=
  evalAll (hand ++ community_cards)

/-- Modelled from the spec: the reference best-five-of-seven oracle that the
source repository does not implement — "the max over all 21 five-card
subsets' strengths"; the evaluator is required by the spec to coincide with
it on 7-card inputs. -/
def bestFiveOfSeven (cards : List ℕ) : Option ℕ :=
  ((cards.sublists.filter (fun s => s.length == 5)).filterMap evalAll).max?

/-! ## The Monte Carlo equity estimator (`Player.monte_carlo_hand_strength`)

The estimator maps every known card to its value (`value_map[card[0]]`,
an integer in 2..14) and works with value multisets from then on: its deck
is `list(range(2, 15)) * 4`, each value with multiplicity 4.

The random draws of `random.sample` are abstracted into an explicit
per-trial oracle (`TrialDraw`); the size checks that make `random.sample`
raise `ValueError` are kept exactly where the source performs them. -/

/-- A Python runtime error raised inside the estimator:
`insufficientDeck` is `random.sample`'s ValueError when the requested sample
size is not between 0 and the population size, `removeMissing` is
`list.remove`'s ValueError for an absent element, and `indexError` is an
IndexError raised inside `evaluate_hand`. -/
inductive SimError
  | insufficientDeck
  | removeMissing
  | indexError
deriving DecidableEq

deriving instance DecidableEq for Except

/-- `deck = list(range(2, 15)) * 4`: the thirteen card values, four times. -/
def initialDeck : List ℕ :=
  List.range' 2 13 ++ List.range' 2 13 ++ List.range' 2 13 ++ List.range' 2 13

/-- `for value in known: deck.remove(value)` — remove the first occurrence of
each known value in turn; `none` models the ValueError raised when a value is
absent. -/
def removeKnown : List ℕ → List ℕ → Option (List ℕ)
  | deck, [] => some deck
  | deck, v :: rest => if v ∈ deck then removeKnown (deck.erase v) rest else none

/-- The deck the estimator reconstructs from the agent's hole-card values and
the visible board-card values. -/
def buildDeck (myValues boardValues : List ℕ) : Option (List ℕ) :=
  removeKnown initialDeck (myValues ++ boardValues)

/-- The random choices of one simulation trial: the opponent hole values
produced by `random.sample(deck, 2)` and the extra community values produced
by `random.sample(remaining_cards, 5 - len(board_values))`. -/
structure TrialDraw where
  opp : List ℕ
  comm : List ℕ
deriving DecidableEq

/-- `random.sample(pop, k)` returns `s`: `s` has length `k` and is a
sub-multiset of the population (no element drawn more often than present). -/
def isSample (s : List ℕ) (k : ℕ) (pop : List ℕ) : Bool :=
  s.length == k && s.all (fun v => decide (s.count v ≤ pop.count v))

/-- One iteration of the estimator's simulation loop.  The opponent draw
requires `2 ≤ len(deck)`; `remaining_cards` drops every deck entry whose
value occurs in the opponent hand; the community draw requires
`0 ≤ 5 - len(board_values) ≤ len(remaining_cards)` (as Python integers);
then both hands are evaluated over `board_values + drawn community` and the
trial reports whether the agent's rank is strictly greater. -/
def simulateTrial (myValues boardValues deck : List ℕ) (d : TrialDraw) : Except SimError Bool :=
  if deck.length < 2 then .error .insufficientDeck
  else
    let remaining := deck.filter (fun c => !(d.opp.contains c))
    if (5 - (boardValues.length : ℤ) < 0) ∨ ((remaining.length : ℤ) < 5 - (boardValues.length : ℤ)) then
      .error .insufficientDeck
    else
      let community := boardValues ++ d.comm
      match evaluate_hand myValues community, evaluate_hand d.opp community with
      | some m, some o => .ok (decide (o < m))
      | _, _ => .error .indexError

/-- `num_simulations = 10000`. -/
def num_simulations : ℕ := 10000

/-- The simulation loop: run the trials in order, incrementing the win
counter after each winning trial; the first runtime error aborts the whole
computation (propagates out of the Python loop). -/
def runTrialsAux (step : ℕ → Except SimError Bool) : List ℕ → ℕ → Except SimError ℕ
  | [], acc => .ok acc
  | i :: rest, acc =>
    match step i with
    | .error e => .error e
    | .ok b => runTrialsAux step rest (if b then acc + 1 else acc)

/-- `win_count` after the `for _ in range(num_simulations)` loop. -/
def runTrials (myValues boardValues deck : List ℕ) (draws : ℕ → TrialDraw) : Except SimError ℕ :=
  runTrialsAux (fun i => simulateTrial myValues boardValues deck (draws i))
    (List.range num_simulations) 0

/-- Whether a trial result is a recorded win. -/
def isOkTrue (r : Except SimError Bool) : Bool :=
  match r with
  | .ok true => true
  | _ => false

/-- `Player.monte_carlo_hand_strength`, parameterised by the per-trial random
draws: reconstruct the deck, run `num_simulations` trials, and return
`win_count / num_simulations`. -/
def monte_carlo_hand_strength (myValues boardValues : List ℕ) (draws : ℕ → TrialDraw) :
    Except SimError ℚ :=
  match buildDeck myValues boardValues with
  | none => .error .removeMissing
  | some deck =>
    match runTrials myValues boardValues deck draws with
    | .error e => .error e
    | .ok w => .ok ((w : ℚ) / (num_simulations : ℚ))

/-! ## The decision policy (`Player.get_action`)

`STARTING_STACK` lives in the external skeleton framework and is passed in
as a parameter.  The two `random.random()` samples and the opponent-model
lookup are parameters as well, and the Monte Carlo estimate feeds in as
`handStrength`.  `none` models a Python ZeroDivisionError. -/

/-- An action class, as found in `observation["legal_actions"]`. -/
inductive ActKind
  | foldK
  | callK
  | checkK
  | raiseK
deriving DecidableEq

/-- An action instance returned by `get_action`. -/
inductive BotAction
  | fold
  | call
  | check
  | raiseBy (amount : ℤ)
deriving DecidableEq

/-- The observation fields `get_action` reads. -/
structure Obs where
  myStack : ℤ
  oppStack : ℤ
  myPip : ℤ
  oppPip : ℤ
  minRaise : ℤ
  maxRaise : ℤ
  legalActions : List ActKind
deriving DecidableEq

/-- Python `int(x)`: truncation toward zero. -/
def intTrunc (q : ℚ) : ℤ :=
  if 0 ≤ q then ⌊q⌋ else ⌈q⌉

/-- `Player.calculate_raise_amount`.  The value-bet branch divides by
`1 - pot_odds`, a ZeroDivisionError when `pot_odds = 1`, modelled as `none`;
the bluff branch is Python floor division `//`. -/
def calculate_raise_amount (minCost maxCost : ℤ) (potOdds potEquity : ℚ) (bluff : Bool) :
    Option ℤ :=
  if bluff then some (Int.fdiv (minCost + maxCost) 2)
  else if potOdds = 1 then none
  else
    let expectedValue := potEquity * (potOdds / (1 - potOdds))
    let raiseAmount := intTrunc ((maxCost : ℚ) * expectedValue)
    some (max minCost (min maxCost raiseAmount))

/-- The `if pot_equity > pot_odds: ... else: ...` block of `get_action`.
Both branches `return`, so the block always produces an answer (`some`);
the inner `Option` is the returned action, `none` standing for a
ZeroDivisionError inside `calculate_raise_amount`. -/
def stage1 (obs : Obs) (potOdds potEquity r1 oppProb : ℚ) : Option (Option BotAction) :=
  if potOdds < potEquity then
    if ActKind.raiseK ∈ obs.legalActions ∧ r1 < 1 - oppProb then
      some ((calculate_raise_amount (obs.minRaise - obs.myPip) (obs.maxRaise - obs.myPip)
        potOdds potEquity false).map BotAction.raiseBy)
    else some (some BotAction.call)
  else some (some BotAction.fold)

/-- The statements of `get_action` that follow the `if`/`else` block: the
bluffing branch, the check fallback, and the final call. -/
def bluffTail (obs : Obs) (potOdds potEquity r2 oppProb : ℚ) : Option BotAction :=
  if ActKind.raiseK ∈ obs.legalActions ∧ r2 < oppProb * (3 / 10) then
    (calculate_raise_amount (obs.minRaise - obs.myPip) (obs.maxRaise - obs.myPip)
      potOdds potEquity true).map BotAction.raiseBy
  else if ActKind.checkK ∈ obs.legalActions then some BotAction.check
  else some BotAction.call

/-- `Player.get_action`: pot-odds arithmetic followed by the decision blocks;
a zero pot-odds denominator is a ZeroDivisionError (`none`). -/
def get_action (startingStack : ℤ) (obs : Obs) (handStrength r1 r2 oppProb : ℚ) :
    Option BotAction :=
  let oppContribution := startingStack - obs.oppStack
  let continueCost := obs.oppPip - obs.myPip
  let denom := continueCost + oppContribution + obs.oppPip
  if denom = 0 then none
  else
    let potOdds : ℚ := (continueCost : ℚ) / (denom : ℚ)
    match stage1 obs potOdds handStrength r1 oppProb with
    | some result => result
    | none => bluffTail obs potOdds handStrength r2 oppProb

/-! ## Concrete scenarios used by the witnesses -/

/-- The estimator's deck for hole cards of value 14/14 (a pair of aces) and an
empty board. -/
def deckAA : List ℕ := (initialDeck.erase 14).erase 14

/-- One concrete trial draw over `deckAA`: opponent values 2 and 3, community
values 4..8; the agent's pair of aces wins this trial. -/
def drawAA : TrialDraw := ⟨[2, 3], [4, 5, 6, 7, 8]⟩

/-- A concrete observation in which folding is not among the legal actions:
`continue_cost = 0` (both pips equal 10), so the engine offers only check and
raise. -/
def obsNoFold : Obs :=
  ⟨390, 390, 10, 10, 20, 400, [ActKind.checkK, ActKind.raiseK]⟩

/-! ## Permutation invariance of the evaluator

Each component of `evalAll` depends only on the multiset of input cards:
sorting, counting and deduplication all respect permutations. -/

lemma map_congr_on {f g : ℕ → ℕ} : ∀ l : List ℕ, (∀ a, f a = g a) → l.map f = l.map g
  | [], _ => rfl
  | a :: l, h => by simp only [List.map, h a, map_congr_on l h]

lemma filter_congr_on {p q : ℕ → Bool} : ∀ l : List ℕ, (∀ a, p a = q a) → l.filter p = l.filter q
  | [], _ => rfl
  | a :: l, h => by simp only [List.filter, h a, filter_congr_on l h]

lemma sortDesc_eq_of_perm {l₁ l₂ : List ℕ} (h : l₁.Perm l₂) : sortDesc l₁ = sortDesc l₂ :=
  List.eq_of_perm_of_sorted
    ((List.perm_insertionSort _ l₁).trans (h.trans (List.perm_insertionSort _ l₂).symm))
    (List.sorted_insertionSort _ l₁) (List.sorted_insertionSort _ l₂)

lemma suitValues_perm {c₁ c₂ : List ℕ} (h : c₁.Perm c₂) (s : ℕ) :
    (suitValues c₁ s).Perm (suitValues c₂ s) :=
  (h.filter _).map _

lemma sfForSuit_congr {c₁ c₂ : List ℕ} (h : c₁.Perm c₂) (s : ℕ) :
    sfForSuit c₁ s = sfForSuit c₂ s := by
  have hp := suitValues_perm h s
  have hl : (suitValues c₁ s).length = (suitValues c₂ s).length := hp.length_eq
  have hs : sortDesc (suitValues c₁ s) = sortDesc (suitValues c₂ s) := sortDesc_eq_of_perm hp
  simp only [sfForSuit, hl, hs]

lemma sfFind_congr {c₁ c₂ : List ℕ} (h : c₁.Perm c₂) : sfFind c₁ = sfFind c₂ := by
  simp only [sfFind, sfForSuit_congr h 0, sfForSuit_congr h 1, sfForSuit_congr h 2,
    sfForSuit_congr h 3]

lemma flushForSuit_congr {c₁ c₂ : List ℕ} (h : c₁.Perm c₂) (s : ℕ) :
    flushForSuit c₁ s = flushForSuit c₂ s := by
  have hp := suitValues_perm h s
  have hl : (suitValues c₁ s).length = (suitValues c₂ s).length := hp.length_eq
  have hs : sortDesc (suitValues c₁ s) = sortDesc (suitValues c₂ s) := sortDesc_eq_of_perm hp
  simp only [flushForSuit, hl, hs]

lemma flushFind_congr {c₁ c₂ : List ℕ} (h : c₁.Perm c₂) : flushFind c₁ = flushFind c₂ := by
  simp only [flushFind, flushForSuit_congr h 0, flushForSuit_congr h 1, flushForSuit_congr h 2,
    flushForSuit_congr h 3]

lemma countsList_congr {v₁ v₂ : List ℕ} (h : v₁.Perm v₂) : countsList v₁ = countsList v₂ := by
  simp only [countsList]
  exact map_congr_on _ (fun a => h.count_eq a)

lemma straightResult_congr {v₁ v₂ : List ℕ} (h : v₁.Perm v₂) :
    straightResult v₁ = straightResult v₂ := by
  simp only [straightResult, sortDesc_eq_of_perm h.dedup]

lemma twoPairResult_congr {v₁ v₂ : List ℕ} (h : v₁.Perm v₂) :
    twoPairResult v₁ = twoPairResult v₂ := by
  have hpairs : (List.range' 2 13).filter (fun v => decide (2 ≤ v₁.count v)) =
      (List.range' 2 13).filter (fun v => decide (2 ≤ v₂.count v)) :=
    filter_congr_on _ (fun a => by rw [h.count_eq a])
  simp only [twoPairResult, hpairs]

lemma onePairResult_congr {v₁ v₂ : List ℕ} (h : v₁.Perm v₂) :
    onePairResult v₁ = onePairResult v₂ := by
  have hc := countsList_congr h
  have hk : ∀ pv : ℕ, sortDesc (v₁.filter (fun v => decide (v ≠ pv))) =
      sortDesc (v₂.filter (fun v => decide (v ≠ pv))) :=
    fun pv => sortDesc_eq_of_perm (h.filter _)
  simp only [onePairResult, hc, hk]

lemma evalAll_perm {c₁ c₂ : List ℕ} (h : c₁.Perm c₂) : evalAll c₁ = evalAll c₂ := by
  have hv : (handValues c₁).Perm (handValues c₂) := h.map _
  have hc := countsList_congr hv
  simp only [evalAll, sfFind_congr h, flushFind_congr h, quadsResult, fullHouseResult,
    tripsResult, hc, straightResult_congr hv, twoPairResult_congr hv, onePairResult_congr hv,
    highCard, sortDesc_eq_of_perm hv]

/-! ## Deck reconstruction invariants -/

lemma removeKnown_count : ∀ (known deck deckR : List ℕ), removeKnown deck known = some deckR →
    ∀ v, known.count v ≤ deck.count v ∧ deckR.count v = deck.count v - known.count v := by
  intro known
  induction known with
  | nil =>
    intro deck deckR h v
    simp only [removeKnown, Option.some.injEq] at h
    subst h
    simp
  | cons a rest ih =>
    intro deck deckR h v
    simp only [removeKnown] at h
    by_cases hmem : a ∈ deck
    · rw [if_pos hmem] at h
      obtain ⟨h1, h2⟩ := ih (deck.erase a) deckR h v
      have hpos : 1 ≤ deck.count a := List.count_pos_iff.mpr hmem
      by_cases hv : v = a
      · subst hv
        rw [List.count_erase_self] at h1 h2
        simp only [List.count_cons_self]
        omega
      · rw [List.count_erase_of_ne hv] at h1 h2
        rw [List.count_cons_of_ne hv]
        omega
    · rw [if_neg hmem] at h
      exact absurd h (by simp)

lemma removeKnown_length : ∀ (known deck deckR : List ℕ), removeKnown deck known = some deckR →
    known.length ≤ deck.length ∧ deckR.length = deck.length - known.length := by
  intro known
  induction known with
  | nil =>
    intro deck deckR h
    simp only [removeKnown, Option.some.injEq] at h
    subst h
    simp
  | cons a rest ih =>
    intro deck deckR h
    simp only [removeKnown] at h
    by_cases hmem : a ∈ deck
    · rw [if_pos hmem] at h
      obtain ⟨h1, h2⟩ := ih (deck.erase a) deckR h
      have hlen : (deck.erase a).length = deck.length - 1 := List.length_erase_of_mem hmem
      have hpos : 0 < deck.length := List.length_pos.mpr (List.ne_nil_of_mem hmem)
      rw [hlen] at h1 h2
      simp only [List.length_cons]
      omega
    · rw [if_neg hmem] at h
      exact absurd h (by simp)

lemma initialDeck_count_le (v : ℕ) : initialDeck.count v ≤ 4 := by
  have h : (List.range' 2 13).count v ≤ 1 :=
    List.nodup_iff_count_le_one.mp (List.nodup_range' 2 13) v
  simp only [initialDeck, List.count_append]
  omega

lemma isSample_count {s : List ℕ} {k : ℕ} {pop : List ℕ} (h : isSample s k pop = true) :
    ∀ v, s.count v ≤ pop.count v := by
  intro v
  by_cases hv : v ∈ s
  · have hall := (Bool.and_eq_true _ _ |>.mp h).2
    have := List.all_eq_true.mp hall v hv
    simpa using this
  · simp [List.count_eq_zero_of_not_mem hv]

/-! ## Simulation loop lemmas -/

lemma runTrialsAux_ok_count (step : ℕ → Except SimError Bool) :
    ∀ (L : List ℕ) (acc w : ℕ), runTrialsAux step L acc = Except.ok w →
      w = acc + L.countP (fun i => isOkTrue (step i)) := by
  intro L
  induction L with
  | nil =>
    intro acc w h
    simp only [runTrialsAux, Except.ok.injEq] at h
    simp [h]
  | cons a rest ih =>
    intro acc w h
    simp only [runTrialsAux] at h
    cases hs : step a with
    | error e => rw [hs] at h; exact absurd h (by simp)
    | ok b =>
      rw [hs] at h
      have hpa : isOkTrue (step a) = b := by rw [hs]; cases b <;> rfl
      rw [List.countP_cons]
      simp only [hpa]
      cases b
      · simp only [Bool.false_eq_true, if_false, Nat.add_zero] at h ⊢
        exact ih _ _ h
      · simp only [if_true] at h ⊢
        have hrec := ih _ _ h
        omega

lemma runTrialsAux_all_true (step : ℕ → Except SimError Bool)
    (hstep : ∀ i, step i = Except.ok true) :
    ∀ (L : List ℕ) (acc : ℕ), runTrialsAux step L acc = Except.ok (acc + L.length) := by
  intro L
  induction L with
  | nil => intro acc; simp [runTrialsAux]
  | cons a rest ih =>
    intro acc
    simp only [runTrialsAux, hstep a, if_true]
    rw [ih (acc + 1)]
    simp only [List.length_cons, Except.ok.injEq]
    omega

lemma simulateTrial_ok_iff (myValues boardValues deck : List ℕ) (d : TrialDraw) (b : Bool)
    (h : simulateTrial myValues boardValues deck d = Except.ok b) :
    b = true ↔ ∃ m o, evaluate_hand myValues (boardValues ++ d.comm) = some m ∧
      evaluate_hand d.opp (boardValues ++ d.comm) = some o ∧ o < m := by
  simp only [simulateTrial] at h
  split at h
  · exact absurd h (by simp)
  · split at h
    · exact absurd h (by simp)
    · rcases hm : evaluate_hand myValues (boardValues ++ d.comm) with _ | m <;>
        rcases ho : evaluate_hand d.opp (boardValues ++ d.comm) with _ | o <;>
        rw [hm, ho] at h
      · exact absurd h (by simp)
      · exact absurd h (by simp)
      · exact absurd h (by simp)
      · simp only [Except.ok.injEq] at h
        subst h
        constructor
        · intro hb
          exact ⟨m, o, rfl, rfl, of_decide_eq_true hb⟩
        · rintro ⟨m2, o2, hm2, ho2, hlt⟩
          have e1 : m2 = m := (Option.some.inj hm2).symm
          have e2 : o2 = o := (Option.some.inj ho2).symm
          subst e1
          subst e2
          exact decide_eq_true hlt

lemma drawAA_trial_wins : simulateTrial [14, 14] [] deckAA drawAA = Except.ok true := by
  decide

lemma buildDeck_AA : buildDeck [14, 14] [] = some deckAA := by
  decide

lemma monte_carlo_eq (myValues boardValues : List ℕ) (draws : ℕ → TrialDraw) (deck : List ℕ)
    (hd : buildDeck myValues boardValues = some deck) :
    monte_carlo_hand_strength myValues boardValues draws =
      match runTrials myValues boardValues deck draws with
      | .error e => .error e
      | .ok w => .ok ((w : ℚ) / (num_simulations : ℚ)) := by
  unfold monte_carlo_hand_strength
  rw [hd]

lemma monte_carlo_const_winner :
    monte_carlo_hand_strength [14, 14] [] (fun _ => drawAA) = Except.ok 1 := by
  have hrun : runTrials [14, 14] [] deckAA (fun _ => drawAA) = Except.ok 10000 := by
    unfold runTrials
    rw [runTrialsAux_all_true _ (fun _ => drawAA_trial_wins)]
    norm_num [num_simulations]
  rw [monte_carlo_eq [14, 14] [] (fun _ => drawAA) deckAA buildDeck_AA, hrun]
  norm_num [num_simulations]

/-! ## The claims -/

/-- Claim C1 (refuted; the spec, not the code, is right): on 7-card input the
evaluator is supposed to return the best strength over all 21 five-card
subsets, but its greedy scan of suits/values over the full set disagrees with
the oracle.  On the cards 5♠5♥5♦ 9♠9♥9♦ 2♠ (encoded 20,21,22,36,37,38,8) the
greedy scan finds only three-of-a-kind (strength 9) while the subset
{9,9,9,5,5} — and even better {9,9,5,5,2} under this encoding — scores 25. -/
theorem evaluate_hand_not_best_five_of_seven :
    evaluate_hand [20, 21] [22, 36, 37, 38, 8] = some 9 ∧
    bestFiveOfSeven ([20, 21] ++ [22, 36, 37, 38, 8]) = some 25 ∧
    evaluate_hand [20, 21] [22, 36, 37, 38, 8] ≠
      bestFiveOfSeven ([20, 21] ++ [22, 36, 37, 38, 8]) := by
  decide

/-- Claim C2 (refuted; the spec, not the code, is right): the scalar strength
encoding does not give higher categories dominance.  A royal flush
(cards 40,44,48,52,56, all suit 0) scores `8 + 14 = 22`, while a mere pair of
aces with small kickers (cards 56,57,16,12,8) scores `1 + 24*2 + 14 = 63`
through the one-pair formula, outranking the straight flush. -/
theorem pair_hand_outranks_straight_flush :
    evaluate_hand [40, 44] [48, 52, 56] = some 22 ∧
    evaluate_hand [56, 57] [16, 12, 8] = some 63 ∧
    (22 : ℕ) < 63 := by
  decide

/-- Claim C3 (confirmed): whenever the estimator returns a value `q`, it ran
exactly `num_simulations = 10000` trials, `q` is the number of winning trials
divided by 10000 (hence `0 ≤ q ≤ 1`), and a trial is a win exactly when the
agent's evaluated strength is strictly greater than the opponent's (ties are
not wins). -/
theorem monte_carlo_returns_win_fraction (myValues boardValues : List ℕ)
    (draws : ℕ → TrialDraw) (q : ℚ)
    (h : monte_carlo_hand_strength myValues boardValues draws = Except.ok q) :
    num_simulations = 10000 ∧ 0 ≤ q ∧ q ≤ 1 ∧
    ∃ deck, buildDeck myValues boardValues = some deck ∧
      q = (((List.range num_simulations).countP
            (fun i => isOkTrue (simulateTrial myValues boardValues deck (draws i)))) : ℚ) /
          (num_simulations : ℚ) ∧
      ∀ i b, simulateTrial myValues boardValues deck (draws i) = Except.ok b →
        (b = true ↔ ∃ m o, evaluate_hand myValues (boardValues ++ (draws i).comm) = some m ∧
          evaluate_hand (draws i).opp (boardValues ++ (draws i).comm) = some o ∧ o < m) := by
  cases hd : buildDeck myValues boardValues with
  | none =>
    unfold monte_carlo_hand_strength at h
    rw [hd] at h
    exact absurd h (by simp)
  | some deck =>
    rw [monte_carlo_eq myValues boardValues draws deck hd] at h
    cases hr : runTrials myValues boardValues deck draws with
    | error e => rw [hr] at h; exact absurd h (by simp)
    | ok w =>
      rw [hr] at h
      simp only [Except.ok.injEq] at h
      have hw : w = 0 + (List.range num_simulations).countP
          (fun i => isOkTrue (simulateTrial myValues boardValues deck (draws i))) :=
        runTrialsAux_ok_count _ _ _ _ hr
      rw [Nat.zero_add] at hw
      rw [hw] at h
      clear hw hr
      have hcle : (List.range num_simulations).countP
          (fun i => isOkTrue (simulateTrial myValues boardValues deck (draws i))) ≤
          num_simulations := by
        calc _ ≤ (List.range num_simulations).length := List.countP_le_length _
        _ = num_simulations := List.length_range num_simulations
      refine ⟨rfl, ?_, ?_, deck, rfl, ?_, ?_⟩
      · rw [← h]
        exact div_nonneg (Nat.cast_nonneg _) (Nat.cast_nonneg _)
      · rw [← h]
        exact div_le_one_of_le₀ (Nat.cast_le.mpr hcle) (Nat.cast_nonneg _)
      · rw [← h]
      · exact fun i b hb => simulateTrial_ok_iff _ _ _ _ _ hb

/-- Witness for C3: a pair of aces against the constant winning draw `drawAA`
yields equity 1 after 10000 winning trials. -/
theorem monte_carlo_returns_win_fraction_witness :
    (monte_carlo_hand_strength [14, 14] [] (fun _ => drawAA) = Except.ok 1) ∧
    (num_simulations = 10000 ∧ 0 ≤ (1 : ℚ) ∧ (1 : ℚ) ≤ 1 ∧
      ∃ deck, buildDeck [14, 14] [] = some deck ∧
        (1 : ℚ) = (((List.range num_simulations).countP
              (fun _i => isOkTrue (simulateTrial [14, 14] [] deck drawAA))) : ℚ) /
            (num_simulations : ℚ) ∧
        ∀ (_i : ℕ) (b : Bool), simulateTrial [14, 14] [] deck drawAA = Except.ok b →
          (b = true ↔ ∃ m o, evaluate_hand [14, 14] ([] ++ drawAA.comm) = some m ∧
            evaluate_hand drawAA.opp ([] ++ drawAA.comm) = some o ∧ o < m)) :=
  ⟨monte_carlo_const_winner,
    monte_carlo_returns_win_fraction [14, 14] [] (fun _ => drawAA) 1 monte_carlo_const_winner⟩

/-- Claim C4 (confirmed): in a simulation trial, the opponent's sampled values
are a sub-multiset of the reconstructed deck, the sampled community values
come from the deck with all opponent values removed, and therefore no card is
over-used: over the agent's values, the board values, the opponent draw and
the community draw together, no value occurs more than its 4 copies in the
52-card deck, and the community draw shares no value with the opponent draw. -/
theorem trial_sampling_without_replacement (myValues boardValues deck : List ℕ) (d : TrialDraw)
    (hdeck : buildDeck myValues boardValues = some deck)
    (hopp : isSample d.opp 2 deck = true)
    (hcomm : isSample d.comm (5 - boardValues.length)
        (deck.filter (fun c => !(d.opp.contains c))) = true) :
    (∀ v, (myValues ++ boardValues ++ d.opp ++ d.comm).count v ≤ 4) ∧
    ∀ v, v ∈ d.comm → v ∉ d.opp := by
  have hk := removeKnown_count (myValues ++ boardValues) initialDeck deck hdeck
  have hoppc := isSample_count hopp
  have hcommc := isSample_count hcomm
  have hrem_le : ∀ v, (deck.filter (fun c => !(d.opp.contains c))).count v ≤ deck.count v :=
    fun v => (List.filter_sublist _).count_le v
  have hdisj : ∀ v, v ∈ d.comm → v ∉ d.opp := by
    intro v hv hvopp
    have h1 : 0 < d.comm.count v := List.count_pos_iff.mpr hv
    have h2 : 0 < (deck.filter (fun c => !(d.opp.contains c))).count v :=
      lt_of_lt_of_le h1 (hcommc v)
    have h3 := (List.mem_filter.mp (List.count_pos_iff.mp h2)).2
    have h5 : v ∉ d.opp := by simpa using h3
    exact h5 hvopp
  refine ⟨?_, hdisj⟩
  intro v
  have hinit : initialDeck.count v ≤ 4 := initialDeck_count_le v
  obtain ⟨hk1, hk2⟩ := hk v
  have ho := hoppc v
  have hc := hcommc v
  have hr := hrem_le v
  simp only [List.count_append] at hk1 hk2 ⊢
  by_cases hvo : v ∈ d.opp
  · have hz : (deck.filter (fun c => !(d.opp.contains c))).count v = 0 := by
      apply List.count_eq_zero_of_not_mem
      intro hmem
      have h4 := (List.mem_filter.mp hmem).2
      have h5 : v ∉ d.opp := by simpa using h4
      exact h5 hvo
    rw [hz] at hc
    omega
  · have ho0 : d.opp.count v = 0 := List.count_eq_zero_of_not_mem hvo
    omega

/-- Witness for C4 at the aces scenario: the draw `drawAA` is a valid sample
from `deckAA` and the without-replacement bounds hold. -/
theorem trial_sampling_without_replacement_witness :
    (buildDeck [14, 14] [] = some deckAA ∧
      isSample drawAA.opp 2 deckAA = true ∧
      isSample drawAA.comm (5 - ([] : List ℕ).length)
        (deckAA.filter (fun c => !(drawAA.opp.contains c))) = true) ∧
    ((∀ v, ([14, 14] ++ ([] : List ℕ) ++ drawAA.opp ++ drawAA.comm).count v ≤ 4) ∧
      ∀ v, v ∈ drawAA.comm → v ∉ drawAA.opp) :=
  ⟨⟨by decide, by decide, by decide⟩,
    trial_sampling_without_replacement [14, 14] [] deckAA drawAA
      (by decide) (by decide) (by decide)⟩

/-- Claim C5 (refuted; the spec, not the code, is right): the evaluator has no
input validation and no `InvalidHandError`.  Duplicate cards (8,8 — the 2♠
twice) evaluate normally to strength 3, a single card evaluates normally to
strength 2, while the perfectly valid duplicate-free two-card hand (16,17 — a
pair of fours) crashes with an IndexError on the empty kicker list. -/
theorem evaluate_hand_no_input_validation :
    evaluate_hand [8, 8] [] = some 3 ∧
    evaluate_hand [8] [] = some 2 ∧
    evaluate_hand [16, 17] [] = none := by
  decide

/-- Claim C6 (confirmed): a trial of the estimator fails with the
sample-too-large error exactly when a requested sample size exceeds the
population it is drawn from: 2 opponent cards against the reconstructed deck,
or `5 - len(board)` community cards against the deck minus the opponent's
values (given a board of at most 5 cards, so that the requested community
sample size is nonnegative). -/
theorem insufficient_deck_error_iff (myValues boardValues deck : List ℕ) (d : TrialDraw)
    (hb : boardValues.length ≤ 5) :
    simulateTrial myValues boardValues deck d = Except.error SimError.insufficientDeck ↔
      (deck.length < 2 ∨
        (deck.filter (fun c => !(d.opp.contains c))).length < 5 - boardValues.length) := by
  simp only [simulateTrial]
  by_cases h1 : deck.length < 2
  · simp [h1]
  · rw [if_neg h1]
    by_cases h2 : (5 - (boardValues.length : ℤ) < 0) ∨
        (((deck.filter (fun c => !(d.opp.contains c))).length : ℤ) <
          5 - (boardValues.length : ℤ))
    · rw [if_pos h2]
      simp only [h1, false_or]
      constructor
      · intro _
        rcases h2 with h2 | h2
        · omega
        · omega
      · intro _
        trivial
    · rw [if_neg h2]
      push_neg at h2
      obtain ⟨h3, h4⟩ := h2
      constructor
      · intro hcontra
        rcases hm : evaluate_hand myValues (boardValues ++ d.comm) with _ | m <;>
          rcases ho : evaluate_hand d.opp (boardValues ++ d.comm) with _ | o <;>
          rw [hm, ho] at hcontra <;>
          exact absurd hcontra (by simp)
      · intro hr
        rcases hr with hr | hr
        · exact absurd hr h1
        · omega

/-- Witness for C6 at the aces scenario: the board is empty (≤ 5 cards) and
neither sample size exceeds its population, so the trial does not raise the
sample-size error. -/
theorem insufficient_deck_error_iff_witness :
    (([] : List ℕ).length ≤ 5) ∧
    (simulateTrial [14, 14] [] deckAA drawAA = Except.error SimError.insufficientDeck ↔
      (deckAA.length < 2 ∨
        (deckAA.filter (fun c => !(drawAA.opp.contains c))).length < 5 - ([] : List ℕ).length)) :=
  ⟨by decide, insufficient_deck_error_iff [14, 14] [] deckAA drawAA (by decide)⟩

/-- Claim C7 (confirmed): whenever the estimator's deck reconstruction
succeeds, the full deck has 52 entries, the reconstructed deck has exactly
`52 - |known cards|` entries, and for every value the deck's copies plus the
known copies make up exactly the full deck's copies — in particular no value
ever occurs more than its 4 canonical copies, so the deck is a sub-multiset
of the 52-card deck (no duplicated card). -/
theorem deck_reconstruction_size_and_bounds (myValues boardValues deck : List ℕ)
    (h : buildDeck myValues boardValues = some deck) :
    initialDeck.length = 52 ∧
    deck.length = 52 - (myValues ++ boardValues).length ∧
    (∀ v, deck.count v + (myValues ++ boardValues).count v = initialDeck.count v) ∧
    ∀ v, deck.count v ≤ 4 := by
  have hlen := removeKnown_length (myValues ++ boardValues) initialDeck deck h
  have hcnt := removeKnown_count (myValues ++ boardValues) initialDeck deck h
  have hl52 : initialDeck.length = 52 := by decide
  refine ⟨hl52, ?_, ?_, ?_⟩
  · rw [hlen.2, hl52]
  · intro v
    obtain ⟨h1, h2⟩ := hcnt v
    omega
  · intro v
    obtain ⟨h1, h2⟩ := hcnt v
    have h3 := initialDeck_count_le v
    omega

/-- Witness for C7: hole values 14,13 with board values 2,3,4 build a 47-value
deck satisfying the size and multiplicity invariants. -/
theorem deck_reconstruction_size_and_bounds_witness :
    (buildDeck [14, 13] [2, 3, 4] =
      some (((((initialDeck.erase 14).erase 13).erase 2).erase 3).erase 4)) ∧
    (initialDeck.length = 52 ∧
      (((((initialDeck.erase 14).erase 13).erase 2).erase 3).erase 4).length =
        52 - ([14, 13] ++ [2, 3, 4] : List ℕ).length ∧
      (∀ v, (((((initialDeck.erase 14).erase 13).erase 2).erase 3).erase 4).count v +
        (([14, 13] ++ [2, 3, 4] : List ℕ)).count v = initialDeck.count v) ∧
      ∀ v, (((((initialDeck.erase 14).erase 13).erase 2).erase 3).erase 4).count v ≤ 4) :=
  ⟨by decide, deck_reconstruction_size_and_bounds [14, 13] [2, 3, 4] _ (by decide)⟩

/-- Claim C8 (confirmed): the evaluator depends only on the multiset of its
input cards — for any two hand/community splits whose combined card lists are
permutations of each other, the results (including the crash behaviour)
coincide. -/
theorem evaluate_hand_perm_invariant (hand₁ comm₁ hand₂ comm₂ : List ℕ)
    (hp : (hand₁ ++ comm₁).Perm (hand₂ ++ comm₂)) :
    evaluate_hand hand₁ comm₁ = evaluate_hand hand₂ comm₂ :=
  evalAll_perm hp

/-- Witness for C8: a royal flush dealt in two different orders and with a
different hand/community split evaluates identically. -/
theorem evaluate_hand_perm_invariant_witness :
    (([56, 40] ++ [44, 48, 52] : List ℕ).Perm ([52, 44] ++ [48, 40, 56])) ∧
    evaluate_hand [56, 40] [44, 48, 52] = evaluate_hand [52, 44] [48, 40, 56] :=
  ⟨by decide, evaluate_hand_perm_invariant [56, 40] [44, 48, 52] [52, 44] [48, 40, 56]
    (by decide)⟩

/-- Claim C9 (refuted; the spec, not the code, is right): when the estimated
equity does not beat the pot odds, `get_action` returns `FoldAction`
unconditionally — it never consults `legal_actions` in that branch and has no
check/call fallback.  With equity 0 and pot odds 0 it folds even though
folding is illegal in `obsNoFold`. -/
theorem get_action_folds_when_fold_illegal :
    get_action 400 obsNoFold 0 (1 / 2) (1 / 2) (1 / 2) = some BotAction.fold ∧
    ActKind.foldK ∉ obsNoFold.legalActions := by
  constructor
  · have hpo : (((10 : ℤ) - 10 : ℤ) : ℚ) / ((((10 : ℤ) - 10) + (400 - 390) + 10 : ℤ) : ℚ) = 0 := by
      norm_num
    simp only [get_action, obsNoFold, stage1, hpo]
    norm_num
  · decide

lemma stage1_classify (obs : Obs) (po pe r o : ℚ) :
    ∃ res, stage1 obs po pe r o = some res ∧
      (res = none ∨ res = some BotAction.fold ∨ res = some BotAction.call ∨
        ∃ n, res = some (BotAction.raiseBy n)) := by
  unfold stage1
  split
  · split
    · refine ⟨(calculate_raise_amount (obs.minRaise - obs.myPip) (obs.maxRaise - obs.myPip)
        po pe false).map BotAction.raiseBy, rfl, ?_⟩
      rcases calculate_raise_amount (obs.minRaise - obs.myPip) (obs.maxRaise - obs.myPip)
          po pe false with _ | n
      · exact Or.inl rfl
      · exact Or.inr (Or.inr (Or.inr ⟨n, rfl⟩))
    · exact ⟨some BotAction.call, rfl, Or.inr (Or.inr (Or.inl rfl))⟩
  · exact ⟨some BotAction.fold, rfl, Or.inr (Or.inl rfl)⟩

/-- Claim C10 (confirmed): the `if pot_equity > pot_odds`/`else` block of
`get_action` returns on every path, so the bluffing branch and the check
fallback after it are dead code; `get_action` therefore never returns a
`CheckAction` — every outcome is a raise, call or fold (or a propagated
arithmetic error). -/
theorem get_action_never_checks (startingStack : ℤ) (obs : Obs)
    (handStrength r1 r2 oppProb : ℚ) :
    (∀ potOdds potEquity : ℚ, (stage1 obs potOdds potEquity r1 oppProb).isSome = true) ∧
    get_action startingStack obs handStrength r1 r2 oppProb ≠ some BotAction.check ∧
    (get_action startingStack obs handStrength r1 r2 oppProb = none ∨
      get_action startingStack obs handStrength r1 r2 oppProb = some BotAction.fold ∨
      get_action startingStack obs handStrength r1 r2 oppProb = some BotAction.call ∨
      ∃ n, get_action startingStack obs handStrength r1 r2 oppProb =
        some (BotAction.raiseBy n)) := by
  have key : get_action startingStack obs handStrength r1 r2 oppProb = none ∨
      get_action startingStack obs handStrength r1 r2 oppProb = some BotAction.fold ∨
      get_action startingStack obs handStrength r1 r2 oppProb = some BotAction.call ∨
      ∃ n, get_action startingStack obs handStrength r1 r2 oppProb =
        some (BotAction.raiseBy n) := by
    simp only [get_action]
    by_cases hd0 : (obs.oppPip - obs.myPip) + (startingStack - obs.oppStack) + obs.oppPip = 0
    · rw [if_pos hd0]
      exact Or.inl rfl
    · rw [if_neg hd0]
      obtain ⟨res, hres, hcls⟩ := stage1_classify obs
        (((obs.oppPip - obs.myPip : ℤ) : ℚ) /
          (((obs.oppPip - obs.myPip) + (startingStack - obs.oppStack) + obs.oppPip : ℤ) : ℚ))
        handStrength r1 oppProb
      rw [hres]
      exact hcls
  refine ⟨?_, ?_, key⟩
  · intro po pe
    obtain ⟨res, hres, _⟩ := stage1_classify obs po pe r1 oppProb
    rw [hres]
    rfl
  · rcases key with hk | hk | hk | ⟨n, hk⟩ <;> rw [hk] <;> simp

/-- Witness for C10 at a concrete observation. -/
theorem get_action_never_checks_witness :
    (∀ potOdds potEquity : ℚ,
      (stage1 obsNoFold potOdds potEquity (1 / 2) (1 / 2)).isSome = true) ∧
    get_action 400 obsNoFold 0 (1 / 2) (1 / 2) (1 / 2) ≠ some BotAction.check ∧
    (get_action 400 obsNoFold 0 (1 / 2) (1 / 2) (1 / 2) = none ∨
      get_action 400 obsNoFold 0 (1 / 2) (1 / 2) (1 / 2) = some BotAction.fold ∨
      get_action 400 obsNoFold 0 (1 / 2) (1 / 2) (1 / 2) = some BotAction.call ∨
      ∃ n, get_action 400 obsNoFold 0 (1 / 2) (1 / 2) (1 / 2) =
        some (BotAction.raiseBy n)) :=
  get_action_never_checks 400 obsNoFold 0 (1 / 2) (1 / 2) (1 / 2)
